import Mathlib

/-!
Shallow embedding of the `mac_address` crate (sources: `src/windows.rs`,
`src/linux.rs`, `src/iter/windows.rs`, `src/iter/linux.rs`).

A MAC address is modelled as a `List Nat` of byte values; adapter display
names appear as UTF-16 code-unit lists on the Windows side and as `String`s
on the Linux side, matching the types the source manipulates.
-/

set_option autoImplicit false

namespace MacSpec

/-- Modelled from the spec: the crate's error enum (`MacAddressError`, defined
in `lib.rs`, which is not among the sources).  §7 of the spec names an
`InternalError` kind and an underlying I/O-error kind propagated from the
safe-source platform facility. -/
inductive MacAddressError where
  | internalError
  | underlyingIoFailure
  deriving DecidableEq, Repr

/-- One record of the Windows adapter linked list (`IP_ADAPTER_ADDRESSES_LH`),
restricted to the fields the crate reads: the fixed 8-byte `PhysicalAddress`
field, the `PhysicalAddressLength` field, and the `FriendlyName` wide string
given as the UTF-16 code units strictly before its null terminator. -/
structure WinAdapter where
  physicalAddress : List Nat
  physicalAddressLength : Nat
  friendlyName : List Nat
  deriving DecidableEq, Repr

/-- Function `convert_mac_bytes` from `src/windows.rs`: copies the first 6
bytes of the record's `PhysicalAddress` field, consulting nothing else. -/
def convert_mac_bytes (a : WinAdapter) : List Nat :=
  a.physicalAddress.take 6

/-- Whether a code-unit sequence is valid UTF-16, i.e. has no unpaired
surrogate: this is exactly the condition under which the `OsString` built by
`construct_string` converts to a Rust `String` (`into_string` succeeds). -/
def validUtf16 : List Nat → Bool
  | [] => true
  | u :: rest =>
    if u < 0xD800 || 0xE000 ≤ u then validUtf16 rest
    else if u < 0xDC00 then
      match rest with
      | [] => false
      | v :: rest2 => if 0xDC00 ≤ v && v < 0xE000 then validUtf16 rest2 else false
    else false

/-- The observable behaviour of the two `GetAdaptersAddresses` calls made by
`get_adapters` in `src/windows.rs`: the return code of the zero-length
size-probe call, the byte count the probe writes into `buf_len`, the return
code of the fill call, and the adapter records the fill call lays out in the
allocated buffer. -/
structure OsFacility where
  probeResult : Nat
  reportedLen : Nat
  fillResult : Nat
  adapters : List WinAdapter
  deriving DecidableEq, Repr

/-- The Windows `ERROR_SUCCESS` status code. -/
def ERROR_SUCCESS : Nat := 0

/-- The Windows `ERROR_BUFFER_OVERFLOW` ("buffer too small") status code,
the outcome `GetAdaptersAddresses` reports on the zero-length probe. -/
def ERROR_BUFFER_OVERFLOW : Nat := 111

/-- Function `get_adapters` from `src/windows.rs`.  The first call writes the required
size into `buf_len`; its return value is discarded by the source.  A buffer of
`buf_len` bytes is allocated and the second call fills it; only the second
call's return code is compared against `ERROR_SUCCESS`. -/
def get_adapters (os : OsFacility) : Except MacAddressError (List WinAdapter) :=
  let buf_len := os.reportedLen
  let _ := buf_len
  if os.fillResult ≠ ERROR_SUCCESS then
    .error .internalError
  else
    .ok os.adapters

/-- The traversal loop of `get_mac` in `src/windows.rs`, after `get_adapters`
has produced the record list: with a query name, return the bytes of the first
record whose `FriendlyName` equals the query (an `OsString` compares equal to
a `&str` exactly when their code-unit sequences coincide); with no query name,
return the first record whose 6 copied bytes are not all zero. -/
def wGetMac : List WinAdapter → Option (List Nat) → Option (List Nat)
  | [], _ => none
  | a :: rest, some n =>
    if a.friendlyName = n then some (convert_mac_bytes a)
    else wGetMac rest (some n)
  | a :: rest, none =>
    if (convert_mac_bytes a).any (fun x => x != 0) then some (convert_mac_bytes a)
    else wGetMac rest none

/-- The traversal loop of `get_mac_list` in `src/windows.rs`: collect, in
traversal order, the 6 copied bytes of every record for which some byte is
non-zero. -/
def wGetMacList : List WinAdapter → List (List Nat)
  | [] => []
  | a :: rest =>
    if (convert_mac_bytes a).any (fun x => x != 0) then
      convert_mac_bytes a :: wGetMacList rest
    else wGetMacList rest

/-- The traversal loop of `get_ifname` in `src/windows.rs`: on the first
record whose 6 copied bytes equal the queried address, decode its
`FriendlyName`; `into_string` fails (surfaced as `InternalError`) exactly when
the units are not valid UTF-16. -/
def wGetIfname : List WinAdapter → List Nat → Except MacAddressError (Option (List Nat))
  | [], _ => .ok none
  | a :: rest, mac =>
    if convert_mac_bytes a = mac then
      if validUtf16 a.friendlyName then .ok (some a.friendlyName)
      else .error .internalError
    else wGetIfname rest mac

/-- Method `Iterator::next` of the Windows `MacAddressIterator`
(`src/iter/windows.rs`): the state is the suffix of the adapter linked list
the cursor points at; a null cursor yields `none`, otherwise the current
record's 6 copied bytes are yielded and the cursor advances to `Next`. -/
def wIterNext : List WinAdapter → Option (List Nat) × List WinAdapter
  | [] => (none, [])
  | a :: rest => (some (convert_mac_bytes a), rest)

/-- Repeatedly call `wIterNext`, collecting every yielded address until the
iterator signals end-of-sequence; the fuel argument bounds the recursion and
is instantiated with the state length, which `wIterNext` strictly decreases. -/
def wIterCollectFuel : Nat → List WinAdapter → List (List Nat)
  | 0, _ => []
  | fuel + 1, s =>
    match wIterNext s with
    | (none, _) => []
    | (some m, s') => m :: wIterCollectFuel fuel s'

/-- All addresses yielded by a Windows `MacAddressIterator` started on the
given adapter list, in yield order. -/
def wIterCollect (s : List WinAdapter) : List (List Nat) :=
  wIterCollectFuel s.length s

/-- One interface record yielded by `getifaddrs` on Linux, restricted to what
the crate reads: `interface_name`, and the nesting of `address`
(an optional `SockaddrStorage`), `as_link_addr()` (whether it views as a
link-layer address) and `addr()` (the optional 6 hardware-address bytes). -/
structure LinuxInterface where
  interface_name : String
  address : Option (Option (Option (List Nat)))
  deriving DecidableEq, Repr

/-- The three nested `if let` layers of `src/linux.rs`: the hardware-address
bytes of an interface, when `address` is present, views as a link-layer
address, and carries bytes. -/
def linuxMacBytes (i : LinuxInterface) : Option (List Nat) :=
  match i.address with
  | some (some (some b)) => some b
  | _ => none

/-- The loop of `get_mac` in `src/linux.rs`: only interfaces carrying
hardware-address bytes are examined; with a query name the first such
interface whose name equals it is returned, otherwise the first whose bytes
are not all zero. -/
def lGetMac : List LinuxInterface → Option String → Option (List Nat)
  | [], _ => none
  | i :: rest, name =>
    match linuxMacBytes i with
    | some bytes =>
      match name with
      | some n =>
        if i.interface_name = n then some bytes else lGetMac rest (some n)
      | none =>
        if bytes.any (fun x => x != 0) then some bytes else lGetMac rest none
    | none => lGetMac rest name

/-- The loop of `get_mac_list` in `src/linux.rs`: collect, in traversal order,
the bytes of every interface carrying hardware-address bytes not all zero. -/
def lGetMacList : List LinuxInterface → List (List Nat)
  | [] => []
  | i :: rest =>
    match linuxMacBytes i with
    | some bytes =>
      if bytes.any (fun x => x != 0) then bytes :: lGetMacList rest
      else lGetMacList rest
    | none => lGetMacList rest

/-- The loop of `get_ifname` in `src/linux.rs`: the name of the first
interface whose hardware-address bytes equal the query; Linux names are
already `String`s, so no decoding can fail. -/
def lGetIfname : List LinuxInterface → List Nat → Option String
  | [], _ => none
  | i :: rest, mac =>
    match linuxMacBytes i with
    | some bytes =>
      if bytes = mac then some i.interface_name else lGetIfname rest mac
    | none => lGetIfname rest mac

/-- Method `Iterator::next` of the Linux `MacAddressIterator`
(`src/iter/linux.rs`): the wrapped `filter_map(filter_macs)` skips interfaces
without hardware-address bytes and yields the bytes of the first interface
that has them; no zero filter is applied here. -/
def lIterNext : List LinuxInterface → Option (List Nat) × List LinuxInterface
  | [] => (none, [])
  | i :: rest =>
    match linuxMacBytes i with
    | some b => (some b, rest)
    | none => lIterNext rest

/-- Repeatedly call `lIterNext`, collecting every yielded address until the
iterator signals end-of-sequence, with fuel bounding the recursion. -/
def lIterCollectFuel : Nat → List LinuxInterface → List (List Nat)
  | 0, _ => []
  | fuel + 1, s =>
    match lIterNext s with
    | (none, _) => []
    | (some m, s') => m :: lIterCollectFuel fuel s'

/-- All addresses yielded by a Linux `MacAddressIterator` started on the given
interface list, in yield order. -/
def lIterCollect (s : List LinuxInterface) : List (List Nat) :=
  lIterCollectFuel s.length s

/-- Function `get_null_position` from `src/windows.rs`: scan memory (16-bit units,
viewed as the function from offsets to unit values) forward from the pointer
until a zero unit is found, returning its offset.  The scan is unbounded and
terminates only because a zero unit exists. -/
def get_null_position (mem : Nat → Nat) (h : ∃ i, mem i = 0) : Nat :=
  Nat.find h

/-- Function `construct_string` from `src/windows.rs`: the wide string built
from the units strictly before the first zero unit. -/
def construct_string (mem : Nat → Nat) (h : ∃ i, mem i = 0) : List Nat :=
  (List.range (get_null_position mem h)).map mem

/-- Full `get_mac` on Windows: `get_adapters()?` followed by the traversal
loop; the loop itself has no failure path. -/
def windows_get_mac (os : OsFacility) (name : Option (List Nat)) :
    Except MacAddressError (Option (List Nat)) :=
  match get_adapters os with
  | .error e => .error e
  | .ok adapters => .ok (wGetMac adapters name)

/-- Full `get_mac_list` on Windows: `get_adapters()?` followed by the
collection loop. -/
def windows_get_mac_list (os : OsFacility) :
    Except MacAddressError (List (List Nat)) :=
  match get_adapters os with
  | .error e => .error e
  | .ok adapters => .ok (wGetMacList adapters)

/-- Full `get_ifname` on Windows: `get_adapters()?` followed by the lookup
loop, which itself can fail on name decoding. -/
def windows_get_ifname (os : OsFacility) (mac : List Nat) :
    Except MacAddressError (Option (List Nat)) :=
  match get_adapters os with
  | .error e => .error e
  | .ok adapters => wGetIfname adapters mac

/-- Sample adapter with a real hardware address and name "eth0". -/
def sampleWinA : WinAdapter := ⟨[1, 2, 3, 4, 5, 6, 0, 0], 6, [101, 116, 104, 48]⟩

/-- Sample adapter with the all-zero placeholder address and name "lo". -/
def sampleWinZero : WinAdapter := ⟨[0, 0, 0, 0, 0, 0, 0, 0], 0, [108, 111]⟩

/-- Sample adapter whose name field is a lone high surrogate, hence not
decodable as text, with a real hardware address. -/
def winBadName : WinAdapter := ⟨[1, 2, 3, 4, 5, 6, 0, 0], 6, [0xD800]⟩

/-- Sample adapter named "n" (code unit 110) with the all-zero address. -/
def winDupZero : WinAdapter := ⟨[0, 0, 0, 0, 0, 0, 0, 0], 6, [110]⟩

/-- Sample adapter named "n" (code unit 110) with a real address. -/
def winDupReal : WinAdapter := ⟨[1, 2, 3, 4, 5, 6, 0, 0], 6, [110]⟩

/-- Sample Linux interface with hardware bytes and name "eth0". -/
def sampleLinuxA : LinuxInterface := ⟨"eth0", some (some (some [1, 2, 3, 4, 5, 6]))⟩

/-- Sample Linux interface with all-zero hardware bytes and name "lo". -/
def sampleLinuxZero : LinuxInterface := ⟨"lo", some (some (some [0, 0, 0, 0, 0, 0]))⟩

/-- Sample Linux interface carrying no link-layer address. -/
def sampleLinuxNoLink : LinuxInterface := ⟨"tun0", some none⟩

/-! ### Supporting lemmas -/

theorem wGetMacList_eq_filter (as : List WinAdapter) :
    wGetMacList as = (as.map convert_mac_bytes).filter (fun m => m.any (fun x => x != 0)) := by
  induction as with
  | nil => rfl
  | cons a rest ih =>
    cases hc : (convert_mac_bytes a).any (fun x => x != 0) <;>
      simp [wGetMacList, List.filter_cons, hc, ih]

theorem lGetMacList_eq_filter (is : List LinuxInterface) :
    lGetMacList is = (is.filterMap linuxMacBytes).filter (fun m => m.any (fun x => x != 0)) := by
  induction is with
  | nil => rfl
  | cons i rest ih =>
    cases hb : linuxMacBytes i with
    | none => simp [lGetMacList, hb, List.filterMap_cons, ih]
    | some b =>
      cases hc : b.any (fun x => x != 0) <;>
        simp [lGetMacList, hb, hc, List.filterMap_cons, List.filter_cons, ih]

theorem wIterCollectFuel_eq (fuel : Nat) :
    ∀ s : List WinAdapter, s.length ≤ fuel →
      wIterCollectFuel fuel s = s.map convert_mac_bytes := by
  induction fuel with
  | zero =>
    intro s hs
    rw [List.eq_nil_of_length_eq_zero (Nat.le_zero.mp hs)]
    rfl
  | succ fuel ih =>
    intro s hs
    cases s with
    | nil => rfl
    | cons a rest =>
      simp [wIterCollectFuel, wIterNext, ih rest (Nat.le_of_succ_le_succ hs)]

theorem wIterCollect_eq (s : List WinAdapter) :
    wIterCollect s = s.map convert_mac_bytes :=
  wIterCollectFuel_eq s.length s (Nat.le_refl _)

theorem lIterCollectFuel_succ (fuel : Nat) (s : List LinuxInterface) :
    lIterCollectFuel (fuel + 1) s =
      match lIterNext s with
      | (none, _) => []
      | (some m, s') => m :: lIterCollectFuel fuel s' := rfl

theorem lIterCollectFuel_eq (fuel : Nat) :
    ∀ s : List LinuxInterface, s.length ≤ fuel →
      lIterCollectFuel fuel s = s.filterMap linuxMacBytes := by
  induction fuel with
  | zero =>
    intro s hs
    rw [List.eq_nil_of_length_eq_zero (Nat.le_zero.mp hs)]
    rfl
  | succ fuel ih =>
    intro s
    induction s with
    | nil => intro _; rfl
    | cons i rest ihs =>
      intro hs
      cases hb : linuxMacBytes i with
      | some b =>
        simp [lIterCollectFuel_succ, lIterNext, hb, List.filterMap_cons,
          ih rest (Nat.le_of_succ_le_succ hs)]
      | none =>
        have h1 : lIterNext (i :: rest) = lIterNext rest := by simp [lIterNext, hb]
        rw [lIterCollectFuel_succ, h1, ← lIterCollectFuel_succ,
          List.filterMap_cons, hb]
        exact ihs (Nat.le_trans (Nat.le_succ _) hs)

theorem lIterCollect_eq (s : List LinuxInterface) :
    lIterCollect s = s.filterMap linuxMacBytes :=
  lIterCollectFuel_eq s.length s (Nat.le_refl _)

theorem wGetMac_none_eq_head (as : List WinAdapter) :
    wGetMac as none = (wGetMacList as).head? := by
  induction as with
  | nil => rfl
  | cons a rest ih =>
    cases hc : (convert_mac_bytes a).any (fun x => x != 0) <;>
      simp [wGetMac, wGetMacList, hc, ih]

theorem lGetMac_none_eq_head (is : List LinuxInterface) :
    lGetMac is none = (lGetMacList is).head? := by
  induction is with
  | nil => rfl
  | cons i rest ih =>
    cases hb : linuxMacBytes i with
    | none => simp [lGetMac, lGetMacList, hb, ih]
    | some b =>
      cases hc : b.any (fun x => x != 0) <;>
        simp [lGetMac, lGetMacList, hb, hc, ih]

theorem ne_replicate_of_any_nonzero (m : List Nat) (h : m.any (fun x => x != 0) = true) :
    m ≠ List.replicate 6 0 := by
  rcases List.any_eq_true.mp h with ⟨x, hx, hxx⟩
  intro he
  subst he
  have hx0 : x = 0 := List.eq_of_mem_replicate hx
  simp [hx0] at hxx

theorem wIterNext_none_state (s s' : List WinAdapter) (h : wIterNext s = (none, s')) :
    s' = [] := by
  cases s with
  | nil =>
    simp [wIterNext] at h
    exact h
  | cons a rest => simp [wIterNext] at h

theorem lIterNext_none_state : ∀ t t' : List LinuxInterface, lIterNext t = (none, t') → t' = [] := by
  intro t
  induction t with
  | nil =>
    intro t' h
    simp [lIterNext] at h
    exact h
  | cons i rest ih =>
    intro t' h
    cases hb : linuxMacBytes i with
    | some b => simp [lIterNext, hb] at h
    | none =>
      rw [show lIterNext (i :: rest) = lIterNext rest from by simp [lIterNext, hb]] at h
      exact ih t' h

theorem wGetMac_name_append (pre post : List WinAdapter) (a : WinAdapter) (n : List Nat)
    (hpre : ∀ b, b ∈ pre → b.friendlyName ≠ n) (ha : a.friendlyName = n) :
    wGetMac (pre ++ a :: post) (some n) = some (convert_mac_bytes a) := by
  induction pre with
  | nil => simp [wGetMac, ha]
  | cons b rest ih =>
    rw [List.cons_append]
    simp only [wGetMac]
    rw [if_neg (hpre b (List.mem_cons_self b rest))]
    exact ih fun c hc => hpre c (List.mem_cons_of_mem b hc)

theorem wGetMac_name_none (as : List WinAdapter) (n : List Nat)
    (h : ∀ b, b ∈ as → b.friendlyName ≠ n) :
    wGetMac as (some n) = none := by
  induction as with
  | nil => rfl
  | cons b rest ih =>
    simp [wGetMac, h b (List.mem_cons_self b rest)]
    exact ih fun c hc => h c (List.mem_cons_of_mem b hc)

theorem lGetMac_name_append (pre post : List LinuxInterface) (i : LinuxInterface)
    (n : String) (b : List Nat)
    (hpre : ∀ j, j ∈ pre → ∀ bb, linuxMacBytes j = some bb → j.interface_name ≠ n)
    (hib : linuxMacBytes i = some b) (hin : i.interface_name = n) :
    lGetMac (pre ++ i :: post) (some n) = some b := by
  induction pre with
  | nil => simp [lGetMac, hib, hin]
  | cons j rest ih =>
    rw [List.cons_append]
    cases hj : linuxMacBytes j with
    | none =>
      simp only [lGetMac, hj]
      exact ih fun c hc bb hbb => hpre c (List.mem_cons_of_mem j hc) bb hbb
    | some bb =>
      simp only [lGetMac, hj]
      rw [if_neg (hpre j (List.mem_cons_self j rest) bb hj)]
      exact ih fun c hc bb2 hbb => hpre c (List.mem_cons_of_mem j hc) bb2 hbb

theorem lGetMac_name_none (is : List LinuxInterface) (n : String)
    (h : ∀ j, j ∈ is → ∀ bb, linuxMacBytes j = some bb → j.interface_name ≠ n) :
    lGetMac is (some n) = none := by
  induction is with
  | nil => rfl
  | cons j rest ih =>
    cases hj : linuxMacBytes j with
    | none =>
      simp only [lGetMac, hj]
      exact ih fun c hc bb hbb => h c (List.mem_cons_of_mem j hc) bb hbb
    | some bb =>
      simp only [lGetMac, hj]
      rw [if_neg (h j (List.mem_cons_self j rest) bb hj)]
      exact ih fun c hc bb2 hbb => h c (List.mem_cons_of_mem j hc) bb2 hbb

theorem wGetIfname_append (pre post : List WinAdapter) (a : WinAdapter) (mac : List Nat)
    (hpre : ∀ b, b ∈ pre → convert_mac_bytes b ≠ mac) (ha : convert_mac_bytes a = mac) :
    wGetIfname (pre ++ a :: post) mac =
      if validUtf16 a.friendlyName then .ok (some a.friendlyName)
      else .error .internalError := by
  induction pre with
  | nil => simp [wGetIfname, ha]
  | cons b rest ih =>
    rw [List.cons_append]
    simp only [wGetIfname]
    rw [if_neg (hpre b (List.mem_cons_self b rest))]
    exact ih fun c hc => hpre c (List.mem_cons_of_mem b hc)

theorem wGetIfname_no_match (as : List WinAdapter) (mac : List Nat)
    (h : ∀ b, b ∈ as → convert_mac_bytes b ≠ mac) :
    wGetIfname as mac = .ok none := by
  induction as with
  | nil => rfl
  | cons b rest ih =>
    simp only [wGetIfname]
    rw [if_neg (h b (List.mem_cons_self b rest))]
    exact ih fun c hc => h c (List.mem_cons_of_mem b hc)

theorem lGetIfname_append (pre post : List LinuxInterface) (i : LinuxInterface)
    (mac b : List Nat)
    (hpre : ∀ j, j ∈ pre → ∀ bb, linuxMacBytes j = some bb → bb ≠ mac)
    (hib : linuxMacBytes i = some b) (hbm : b = mac) :
    lGetIfname (pre ++ i :: post) mac = some i.interface_name := by
  induction pre with
  | nil => simp [lGetIfname, hib, hbm]
  | cons j rest ih =>
    rw [List.cons_append]
    cases hj : linuxMacBytes j with
    | none =>
      simp only [lGetIfname, hj]
      exact ih fun c hc bb hbb => hpre c (List.mem_cons_of_mem j hc) bb hbb
    | some bb =>
      simp only [lGetIfname, hj]
      rw [if_neg (hpre j (List.mem_cons_self j rest) bb hj)]
      exact ih fun c hc bb2 hbb => hpre c (List.mem_cons_of_mem j hc) bb2 hbb

theorem lGetIfname_no_match (is : List LinuxInterface) (mac : List Nat)
    (h : ∀ j, j ∈ is → ∀ bb, linuxMacBytes j = some bb → bb ≠ mac) :
    lGetIfname is mac = none := by
  induction is with
  | nil => rfl
  | cons j rest ih =>
    cases hj : linuxMacBytes j with
    | none =>
      simp only [lGetIfname, hj]
      exact ih fun c hc bb hbb => h c (List.mem_cons_of_mem j hc) bb hbb
    | some bb =>
      simp only [lGetIfname, hj]
      rw [if_neg (h j (List.mem_cons_self j rest) bb hj)]
      exact ih fun c hc bb2 hbb => h c (List.mem_cons_of_mem j hc) bb2 hbb

/-! ### Claim theorems -/

/-- C1 counterexample: a probe call that reports `ERROR_SUCCESS`, an outcome
other than "buffer too small", does not make the acquisition fail with
`InternalError`; with a successful fill call `get_adapters` still proceeds to
allocate, fill, and return the records. -/
theorem getAdapters_succeeds_despite_probe_success :
    get_adapters ⟨ERROR_SUCCESS, 0, ERROR_SUCCESS, [sampleWinA]⟩ = .ok [sampleWinA] ∧
    ERROR_SUCCESS ≠ ERROR_BUFFER_OVERFLOW :=
  ⟨rfl, by decide⟩

/-- C1 amended: the buffer acquisition never inspects the probe call's
outcome; `get_adapters` fails with `InternalError` exactly when the fill call
returns a status other than `ERROR_SUCCESS`, and its result is invariant
under the probe call's return code. -/
theorem getAdapters_checks_only_fill_result (os : OsFacility) (p : Nat) :
    (get_adapters os = .error .internalError ↔ os.fillResult ≠ ERROR_SUCCESS) ∧
    get_adapters { os with probeResult := p } = get_adapters os := by
  constructor
  · unfold get_adapters
    by_cases h : os.fillResult = ERROR_SUCCESS <;> simp [h]
  · rfl

/-- Witness for the amended C1 at a facility whose fill call fails. -/
theorem getAdapters_checks_only_fill_result_witness :
    (get_adapters ⟨ERROR_BUFFER_OVERFLOW, 64, 1, []⟩ = .error .internalError ↔
      (OsFacility.mk ERROR_BUFFER_OVERFLOW 64 1 []).fillResult ≠ ERROR_SUCCESS) ∧
    get_adapters { OsFacility.mk ERROR_BUFFER_OVERFLOW 64 1 [] with probeResult := 5 } =
      get_adapters ⟨ERROR_BUFFER_OVERFLOW, 64, 1, []⟩ :=
  getAdapters_checks_only_fill_result ⟨ERROR_BUFFER_OVERFLOW, 64, 1, []⟩ 5

/-- C10: `convert_mac_bytes` extracts exactly the first 6 bytes of the fixed
`PhysicalAddress` field, never consulting `PhysicalAddressLength`: the result
is unchanged under any value of that length field, and on the 8-byte field it
is precisely the 6-byte field prefix. -/
theorem convert_mac_bytes_unconditional (pa : List Nat) (len₁ len₂ : Nat)
    (nm : List Nat) (h : pa.length = 8) :
    convert_mac_bytes ⟨pa, len₁, nm⟩ = pa.take 6 ∧
    convert_mac_bytes ⟨pa, len₁, nm⟩ = convert_mac_bytes ⟨pa, len₂, nm⟩ ∧
    (convert_mac_bytes ⟨pa, len₁, nm⟩).length = 6 := by
  refine ⟨rfl, rfl, ?_⟩
  simp [convert_mac_bytes, List.length_take, h]

/-- Witness for C10: a record whose reported physical-address length is zero
still yields the residual bytes of the field, unchanged when the length field
says 6 instead. -/
theorem convert_mac_bytes_unconditional_witness :
    convert_mac_bytes ⟨[0, 0, 0, 0, 0, 9, 9, 9], 0, []⟩ = [0, 0, 0, 0, 0, 9, 9, 9].take 6 ∧
    convert_mac_bytes ⟨[0, 0, 0, 0, 0, 9, 9, 9], 0, []⟩ =
      convert_mac_bytes ⟨[0, 0, 0, 0, 0, 9, 9, 9], 6, []⟩ ∧
    (convert_mac_bytes ⟨[0, 0, 0, 0, 0, 9, 9, 9], 0, []⟩).length = 6 :=
  convert_mac_bytes_unconditional [0, 0, 0, 0, 0, 9, 9, 9] 0 6 [] (by decide)

/-- C9: under the null-termination precondition, the name scan returns the
offset of the first zero unit: the unit there is zero, every earlier unit is
non-zero, the decoded text consists of exactly the units strictly before the
first terminator (none of them zero), and no zero-free span bounds the scan:
any offset whose units are all non-zero lies strictly below the result. -/
theorem get_null_position_first_zero (mem : Nat → Nat) (h : ∃ i, mem i = 0) :
    mem (get_null_position mem h) = 0 ∧
    (∀ j, j < get_null_position mem h → mem j ≠ 0) ∧
    (construct_string mem h).length = get_null_position mem h ∧
    (∀ u, u ∈ construct_string mem h → u ≠ 0) ∧
    (∀ n, (∀ j, j ≤ n → mem j ≠ 0) → n < get_null_position mem h) := by
  refine ⟨Nat.find_spec h, fun j hj => Nat.find_min h hj, ?_, ?_, ?_⟩
  · simp [construct_string]
  · intro u hu
    rcases List.mem_map.mp hu with ⟨i, hi, rfl⟩
    exact Nat.find_min h (List.mem_range.mp hi)
  · intro n hn
    by_contra hle
    push_neg at hle
    exact hn _ hle (Nat.find_spec h)

/-- Witness for C9 on a memory holding two non-zero units then a zero. -/
theorem get_null_position_first_zero_witness :
    (fun i => if i = 2 then 0 else 65) (get_null_position (fun i => if i = 2 then 0 else 65) ⟨2, rfl⟩) = 0 ∧
    (∀ j, j < get_null_position (fun i => if i = 2 then 0 else 65) ⟨2, rfl⟩ →
      (fun i => if i = 2 then 0 else 65) j ≠ 0) ∧
    (construct_string (fun i => if i = 2 then 0 else 65) ⟨2, rfl⟩).length =
      get_null_position (fun i => if i = 2 then 0 else 65) ⟨2, rfl⟩ ∧
    (∀ u, u ∈ construct_string (fun i => if i = 2 then 0 else 65) ⟨2, rfl⟩ → u ≠ 0) ∧
    (∀ n, (∀ j, j ≤ n → (fun i => if i = 2 then 0 else 65) j ≠ 0) →
      n < get_null_position (fun i => if i = 2 then 0 else 65) ⟨2, rfl⟩) :=
  get_null_position_first_zero (fun i => if i = 2 then 0 else 65) ⟨2, rfl⟩

/-- C2: on both platforms `get_mac_list` returns exactly the non-all-zero
addresses of the traversal, in traversal order, as a filter of the traversed
address sequence (hence without deduplication, and empty rather than an error
when nothing qualifies), and every returned address differs from the all-zero
sentinel. -/
theorem getMacList_nonzero_filter (as : List WinAdapter) (is : List LinuxInterface) :
    wGetMacList as = (as.map convert_mac_bytes).filter (fun m => m.any (fun x => x != 0)) ∧
    (∀ m, m ∈ wGetMacList as → m ≠ List.replicate 6 0) ∧
    lGetMacList is = (is.filterMap linuxMacBytes).filter (fun m => m.any (fun x => x != 0)) ∧
    (∀ m, m ∈ lGetMacList is → m ≠ List.replicate 6 0) := by
  refine ⟨wGetMacList_eq_filter as, ?_, lGetMacList_eq_filter is, ?_⟩
  · intro m hm
    rw [wGetMacList_eq_filter] at hm
    exact ne_replicate_of_any_nonzero m (List.mem_filter.mp hm).2
  · intro m hm
    rw [lGetMacList_eq_filter] at hm
    exact ne_replicate_of_any_nonzero m (List.mem_filter.mp hm).2

/-- Witness for C2 on two-adapter snapshots holding one real and one all-zero
address each. -/
theorem getMacList_nonzero_filter_witness :
    wGetMacList [sampleWinA, sampleWinZero] =
      ([sampleWinA, sampleWinZero].map convert_mac_bytes).filter
        (fun m => m.any (fun x => x != 0)) ∧
    [1, 2, 3, 4, 5, 6] ≠ List.replicate 6 0 ∧
    lGetMacList [sampleLinuxNoLink, sampleLinuxA, sampleLinuxZero] =
      ([sampleLinuxNoLink, sampleLinuxA, sampleLinuxZero].filterMap linuxMacBytes).filter
        (fun m => m.any (fun x => x != 0)) ∧
    [1, 2, 3, 4, 5, 6] ≠ List.replicate 6 0 := by
  have h := getMacList_nonzero_filter [sampleWinA, sampleWinZero]
    [sampleLinuxNoLink, sampleLinuxA, sampleLinuxZero]
  exact ⟨h.1, h.2.1 [1, 2, 3, 4, 5, 6] (by decide), h.2.2.1,
    h.2.2.2 [1, 2, 3, 4, 5, 6] (by decide)⟩

/-- C3: on both platforms `get_mac` with no query name returns precisely the
head of the `get_mac_list` result, and returns `none` exactly when that list
is empty. -/
theorem getMac_none_eq_head_of_list (as : List WinAdapter) (is : List LinuxInterface) :
    wGetMac as none = (wGetMacList as).head? ∧
    (wGetMac as none = none ↔ wGetMacList as = []) ∧
    lGetMac is none = (lGetMacList is).head? ∧
    (lGetMac is none = none ↔ lGetMacList is = []) := by
  refine ⟨wGetMac_none_eq_head as, ?_, lGetMac_none_eq_head is, ?_⟩
  · rw [wGetMac_none_eq_head]
    exact List.head?_eq_none_iff
  · rw [lGetMac_none_eq_head]
    exact List.head?_eq_none_iff

/-- Witness for C3 on snapshots whose first adapter carries the all-zero
address, so the returned head skips it. -/
theorem getMac_none_eq_head_of_list_witness :
    wGetMac [sampleWinZero, sampleWinA] none = (wGetMacList [sampleWinZero, sampleWinA]).head? ∧
    (wGetMac [sampleWinZero, sampleWinA] none = none ↔ wGetMacList [sampleWinZero, sampleWinA] = []) ∧
    lGetMac [sampleLinuxZero, sampleLinuxA] none = (lGetMacList [sampleLinuxZero, sampleLinuxA]).head? ∧
    (lGetMac [sampleLinuxZero, sampleLinuxA] none = none ↔ lGetMacList [sampleLinuxZero, sampleLinuxA] = []) :=
  getMac_none_eq_head_of_list [sampleWinZero, sampleWinA] [sampleLinuxZero, sampleLinuxA]

/-- C6: on both platforms, once a call to `next` signals end-of-sequence the
iterator state has reached the empty suffix, and every subsequent call, after
any number of further `next` steps, still signals end-of-sequence with the
state unchanged. -/
theorem iterator_exhaustion_idempotent
    (s s' : List WinAdapter) (t t' : List LinuxInterface)
    (hw : wIterNext s = (none, s')) (hl : lIterNext t = (none, t')) :
    (∀ k, wIterNext ((fun u => (wIterNext u).2)^[k] s') = (none, s')) ∧
    (∀ k, lIterNext ((fun u => (lIterNext u).2)^[k] t') = (none, t')) := by
  have hs : s' = [] := wIterNext_none_state s s' hw
  have ht : t' = [] := lIterNext_none_state t t' hl
  subst hs
  subst ht
  constructor
  · intro k
    rw [Function.iterate_fixed rfl k]
    rfl
  · intro k
    rw [Function.iterate_fixed rfl k]
    rfl

/-- Witness for C6: an exhausted Windows iterator and a Linux iterator that
exhausts while skipping an interface without a link-layer address. -/
theorem iterator_exhaustion_idempotent_witness :
    (∀ k, wIterNext ((fun u => (wIterNext u).2)^[k] ([] : List WinAdapter)) = (none, [])) ∧
    (∀ k, lIterNext ((fun u => (lIterNext u).2)^[k] ([] : List LinuxInterface)) = (none, [])) :=
  iterator_exhaustion_idempotent [] [] [sampleLinuxNoLink] [] rfl rfl

/-- C8: on both platforms the `get_mac_list` query equals collecting a fresh
`MacAddressIterator`'s yields and keeping exactly the non-all-zero addresses
in yield order, and the nameless `get_mac` query equals the head of that same
filtered collection. -/
theorem queries_refine_iterator (as : List WinAdapter) (is : List LinuxInterface) :
    wGetMacList as = (wIterCollect as).filter (fun m => m.any (fun x => x != 0)) ∧
    wGetMac as none = ((wIterCollect as).filter (fun m => m.any (fun x => x != 0))).head? ∧
    lGetMacList is = (lIterCollect is).filter (fun m => m.any (fun x => x != 0)) ∧
    lGetMac is none = ((lIterCollect is).filter (fun m => m.any (fun x => x != 0))).head? := by
  have hw : wGetMacList as = (wIterCollect as).filter (fun m => m.any (fun x => x != 0)) := by
    rw [wIterCollect_eq, wGetMacList_eq_filter]
  have hl : lGetMacList is = (lIterCollect is).filter (fun m => m.any (fun x => x != 0)) := by
    rw [lIterCollect_eq, lGetMacList_eq_filter]
  refine ⟨hw, ?_, hl, ?_⟩
  · rw [wGetMac_none_eq_head, hw]
  · rw [lGetMac_none_eq_head, hl]

/-- C4 counterexample: with two adapters both named "n" (code unit 110), the
first carrying the all-zero address and the second the non-zero address
1:2:3:4:5:6, the name query returns the first match's all-zero address, not
the non-zero address of the second adapter named "n". -/
theorem getMac_name_not_every_match :
    winDupReal ∈ [winDupZero, winDupReal] ∧
    winDupReal.friendlyName = [110] ∧
    convert_mac_bytes winDupReal = [1, 2, 3, 4, 5, 6] ∧
    ([1, 2, 3, 4, 5, 6] : List Nat) ≠ List.replicate 6 0 ∧
    wGetMac [winDupZero, winDupReal] (some [110]) = some (List.replicate 6 0) ∧
    wGetMac [winDupZero, winDupReal] (some [110]) ≠ some [1, 2, 3, 4, 5, 6] := by
  decide

/-- C4 amended: the name query returns the address of the first adapter whose
display name equals the query, with no zero-address filtering applied (on
Linux, the first interface that carries hardware bytes and has the queried
name), and returns `none` when no adapter matches after the full list. -/
theorem getMac_name_first_match
    (pre post : List WinAdapter) (a : WinAdapter) (n : List Nat)
    (lpre lpost : List LinuxInterface) (li : LinuxInterface) (ln : String) (lb : List Nat)
    (hpre : ∀ b, b ∈ pre → b.friendlyName ≠ n) (ha : a.friendlyName = n)
    (hlpre : ∀ j, j ∈ lpre → ∀ bb, linuxMacBytes j = some bb → j.interface_name ≠ ln)
    (hlb : linuxMacBytes li = some lb) (hln : li.interface_name = ln) :
    wGetMac (pre ++ a :: post) (some n) = some (convert_mac_bytes a) ∧
    lGetMac (lpre ++ li :: lpost) (some ln) = some lb ∧
    (∀ bs m, (∀ b, b ∈ bs → b.friendlyName ≠ m) → wGetMac bs (some m) = none) ∧
    (∀ js m, (∀ j, j ∈ js → ∀ bb, linuxMacBytes j = some bb → j.interface_name ≠ m) →
      lGetMac js (some m) = none) :=
  ⟨wGetMac_name_append pre post a n hpre ha,
   lGetMac_name_append lpre lpost li ln lb hlpre hlb hln,
   wGetMac_name_none, lGetMac_name_none⟩

/-- Witness for the amended C4: the first adapter named "n" is returned even
though its address is all-zero, and a name absent from the list gives `none`. -/
theorem getMac_name_first_match_witness :
    wGetMac ([] ++ winDupZero :: [winDupReal]) (some [110]) = some (convert_mac_bytes winDupZero) ∧
    lGetMac ([sampleLinuxNoLink] ++ sampleLinuxA :: []) (some "eth0") = some [1, 2, 3, 4, 5, 6] ∧
    wGetMac [sampleWinA] (some [122]) = none ∧
    lGetMac [sampleLinuxA] (some "wlan0") = none := by
  have h := getMac_name_first_match [] [winDupReal] winDupZero [110]
    [sampleLinuxNoLink] [] sampleLinuxA "eth0" [1, 2, 3, 4, 5, 6]
    (by simp) (by decide)
    (by
      intro j hj bb hbb
      rw [List.mem_singleton] at hj
      subst hj
      simp [linuxMacBytes, sampleLinuxNoLink] at hbb)
    (by decide) rfl
  refine ⟨h.1, h.2.1, h.2.2.1 [sampleWinA] [122] (by decide), ?_⟩
  refine h.2.2.2 [sampleLinuxA] "wlan0" ?_
  intro j hj bb hbb
  rw [List.mem_singleton] at hj
  subst hj
  decide

/-- C5: on both platforms `get_ifname` returns the display name of the first
adapter in traversal order whose address equals the query exactly, with no
zero-address filtering (the all-zero address can match), and `none` when no
adapter's address equals the query after the full list; on Windows the
matching adapter's name is returned whenever it decodes to valid text. -/
theorem getIfname_first_match
    (pre post : List WinAdapter) (a : WinAdapter) (mac : List Nat)
    (lpre lpost : List LinuxInterface) (li : LinuxInterface) (lmac lb : List Nat)
    (hpre : ∀ b, b ∈ pre → convert_mac_bytes b ≠ mac)
    (ha : convert_mac_bytes a = mac) (hv : validUtf16 a.friendlyName = true)
    (hlpre : ∀ j, j ∈ lpre → ∀ bb, linuxMacBytes j = some bb → bb ≠ lmac)
    (hlb : linuxMacBytes li = some lb) (hbm : lb = lmac) :
    wGetIfname (pre ++ a :: post) mac = .ok (some a.friendlyName) ∧
    lGetIfname (lpre ++ li :: lpost) lmac = some li.interface_name ∧
    (∀ bs m, (∀ b, b ∈ bs → convert_mac_bytes b ≠ m) → wGetIfname bs m = .ok none) ∧
    (∀ js m, (∀ j, j ∈ js → ∀ bb, linuxMacBytes j = some bb → bb ≠ m) →
      lGetIfname js m = none) := by
  refine ⟨?_, lGetIfname_append lpre lpost li lmac lb hlpre hlb hbm,
    wGetIfname_no_match, lGetIfname_no_match⟩
  rw [wGetIfname_append pre post a mac hpre ha]
  simp [hv]

/-- Witness for C5: the all-zero address is queried and matches the second
adapter (no zero filter), while an address absent from the list gives `none`. -/
theorem getIfname_first_match_witness :
    wGetIfname ([sampleWinA] ++ sampleWinZero :: []) [0, 0, 0, 0, 0, 0] =
      .ok (some sampleWinZero.friendlyName) ∧
    lGetIfname ([sampleLinuxA] ++ sampleLinuxZero :: []) [0, 0, 0, 0, 0, 0] =
      some sampleLinuxZero.interface_name ∧
    wGetIfname [sampleWinA] [9, 9, 9, 9, 9, 9] = .ok none ∧
    lGetIfname [sampleLinuxA] [9, 9, 9, 9, 9, 9] = none := by
  have h := getIfname_first_match [sampleWinA] [] sampleWinZero [0, 0, 0, 0, 0, 0]
    [sampleLinuxA] [] sampleLinuxZero [0, 0, 0, 0, 0, 0] [0, 0, 0, 0, 0, 0]
    (by decide) (by decide) (by decide)
    (by
      intro j hj bb hbb
      rw [List.mem_singleton] at hj
      subst hj
      simp [linuxMacBytes, sampleLinuxA] at hbb
      subst hbb
      decide)
    (by decide) rfl
  refine ⟨h.1, h.2.1, h.2.2.1 [sampleWinA] [9, 9, 9, 9, 9, 9] (by decide), ?_⟩
  refine h.2.2.2 [sampleLinuxA] [9, 9, 9, 9, 9, 9] ?_
  intro j hj bb hbb
  rw [List.mem_singleton] at hj
  subst hj
  simp [linuxMacBytes, sampleLinuxA] at hbb
  subst hbb
  decide

/-- C7 counterexample: an adapter whose display name is a lone surrogate (not
decodable as text) must have its name read and compared by the name query,
yet `get_mac` does not return `InternalError`: with acquisition succeeding it
returns `Ok(None)`, silently treating the undecodable name as a non-match. -/
theorem getMac_undecodable_name_no_error :
    validUtf16 winBadName.friendlyName = false ∧
    validUtf16 [120] = true ∧
    windows_get_mac ⟨ERROR_BUFFER_OVERFLOW, 64, ERROR_SUCCESS, [winBadName]⟩ (some [120]) =
      .ok none :=
  ⟨by decide, by decide, rfl⟩

/-- C7 amended: a failed name decoding is surfaced as `InternalError` by
`get_ifname`, the one operation that converts a name to text: when the first
address-matching adapter's name is undecodable the lookup errors rather than
returning a truncated name.  `get_mac` with a query name, by contrast, never
decodes: after successful acquisition it always returns `Ok`, and an adapter
with an undecodable name is skipped as a non-match of any valid query. -/
theorem text_decoding_error_surfaced
    (pre post : List WinAdapter) (a : WinAdapter) (mac : List Nat)
    (hpre : ∀ b, b ∈ pre → convert_mac_bytes b ≠ mac)
    (ha : convert_mac_bytes a = mac)
    (hbad : validUtf16 a.friendlyName = false) :
    wGetIfname (pre ++ a :: post) mac = .error .internalError ∧
    (∀ (os : OsFacility) (n : List Nat), os.fillResult = ERROR_SUCCESS →
      windows_get_mac os (some n) = .ok (wGetMac os.adapters (some n))) ∧
    (∀ (rest : List WinAdapter) (b : WinAdapter) (n : List Nat),
      validUtf16 b.friendlyName = false → validUtf16 n = true →
      wGetMac (b :: rest) (some n) = wGetMac rest (some n)) := by
  refine ⟨?_, ?_, ?_⟩
  · rw [wGetIfname_append pre post a mac hpre ha]
    simp [hbad]
  · intro os n hos
    simp [windows_get_mac, get_adapters, hos]
  · intro rest b n hb hn
    have hne : b.friendlyName ≠ n := by
      intro he
      rw [he, hn] at hb
      exact Bool.noConfusion hb
    simp [wGetMac, hne]

/-- Witness for the amended C7 at the undecodable-name adapter: the address
lookup errors, while the name query still returns `Ok` and skips it. -/
theorem text_decoding_error_surfaced_witness :
    wGetIfname ([] ++ winBadName :: []) [1, 2, 3, 4, 5, 6] = .error .internalError ∧
    windows_get_mac ⟨ERROR_BUFFER_OVERFLOW, 64, ERROR_SUCCESS, [winBadName]⟩ (some [120]) =
      .ok (wGetMac (OsFacility.mk ERROR_BUFFER_OVERFLOW 64 ERROR_SUCCESS [winBadName]).adapters
        (some [120])) ∧
    wGetMac (winBadName :: []) (some [120]) = wGetMac [] (some [120]) := by
  have h := text_decoding_error_surfaced [] [] winBadName [1, 2, 3, 4, 5, 6]
    (by simp) (by decide) (by decide)
  exact ⟨h.1, h.2.1 ⟨ERROR_BUFFER_OVERFLOW, 64, ERROR_SUCCESS, [winBadName]⟩ [120] rfl,
    h.2.2 [] winBadName [120] (by decide) (by decide)⟩

end MacSpec
